import Mathlib

/-!
Verification of the audio-detection module (`audio.py`) of stb-tester.

Shallow embedding: audio levels (dB floats in the source) are modelled as
rationals; GStreamer `level` messages are modelled as a timestamp (an
unsigned nanosecond count) together with the per-channel level tuple; the
`_audio_levels` generator is modelled as a function from the finite list of
messages the bus delivers to the list of readings it yields, paired with
how the iteration ends (`EndKind`): the overall-timeout `return` on one
hand, and the `Queue.Empty` exception that a 2-second poll expiry raises
(the message list being exhausted) on the other.  `wait_for_sound` and
`ensure_no_glitch` consume those readings exactly as the Python loops do.
-/

namespace Audio

/-- A GStreamer `level` element message: the buffer timestamp in
nanoseconds and the per-channel levels (dB, modelled as `ℚ`). -/
structure Msg where
  timestamp : ℕ
  levels : List ℚ
deriving DecidableEq, Repr

/-- How an iteration of the `_audio_levels` generator ends:
`timedOut` is the normal `return` once the overall timeout is exceeded;
`stalled` is the `Queue.Empty` exception raised when no message arrives
within the 2-second poll (modelled as the message list running out). -/
inductive EndKind
  | timedOut
  | stalled
deriving DecidableEq, Repr

/-- Outcome of `wait_for_sound` (audio.py lines 66-106).
`detected` is the normal return with the triggering reading's levels;
`lowAudio` is the `LowAudio` exception with its three constructor
arguments; `configurationError` is `stbt.ConfigurationError`;
`unboundLocalError` is the Python `UnboundLocalError` raised by
`raise LowAudio(levels, ...)` when the loop body never ran and the local
`levels` is unbound; `queueEmpty` is the `Queue.Empty` exception
propagating out of the stalled generator. -/
inductive WaitResult
  | detected (levels : List ℚ)
  | lowAudio (levels : List ℚ) (threshold_level : ℚ) (timeout_secs : ℕ)
  | configurationError
  | unboundLocalError
  | queueEmpty
deriving DecidableEq, Repr

/-- The `consecutive_samples` argument after `str()` conversion: either a
plain integer string, or an "x/y" string (the code branches on whether the
string contains "/", audio.py lines 80-86). -/
inductive ConsecutiveSamples
  | int (n : ℕ)
  | frac (x y : ℕ)
deriving DecidableEq, Repr

/-- Parsing of `consecutive_samples` (audio.py lines 80-86): an "x/y"
string gives `sound_detected_samples = x`, `considered_samples = y`; a
plain integer gives both equal to it. -/
def parseConsecutiveSamples : ConsecutiveSamples → ℕ × ℕ
  | .int n => (n, n)
  | .frac x y => (x, y)

/-- One `samples.append(flag)` on the `deque(maxlen=cap)` (audio.py
line 99/101): append at the right, discard from the left beyond `cap`. -/
def pushWindow (cap : ℕ) (w : List Bool) (b : Bool) : List Bool :=
  let w' := w ++ [b]
  w'.drop (w'.length - cap)

/-- `bool([l for l in levels if l >= threshold_level])` (audio.py
line 101): true iff some channel level is ≥ the threshold level. -/
def soundFlag (threshold_level : ℚ) (levels : List ℚ) : Bool :=
  levels.any (fun l => decide (threshold_level ≤ l))

/-- The `for levels in _audio_levels(...)` loop of `wait_for_sound`
(audio.py lines 100-106), over the readings the generator yields and the
way the generator's iteration ends.  `samples` is the deque, `last` the
`levels` local from the previous iteration (unbound at first). -/
def waitLoop (d cap : ℕ) (threshold_level : ℚ) (timeout_secs : ℕ)
    (samples : List Bool) (last : Option (List ℚ)) :
    List (List ℚ) → EndKind → WaitResult
  | [], .timedOut =>
      match last with
      | some levels => .lowAudio levels threshold_level timeout_secs
      | none => .unboundLocalError
  | [], .stalled => .queueEmpty
  | levels :: rest, e =>
      let samples' := pushWindow cap samples (soundFlag threshold_level levels)
      if d ≤ samples'.count true then .detected levels
      else waitLoop d cap threshold_level timeout_secs samples' (some levels) rest e

/-- `wait_for_sound` specialised to a stream that yields `readings` and
then exhausts normally (overall timeout reached): the configuration check
of audio.py lines 88-90 followed by the detection loop of lines 99-106. -/
def waitForSoundOnReadings (timeout_secs d cap : ℕ) (threshold_level : ℚ)
    (readings : List (List ℚ)) : WaitResult :=
  if cap < d then .configurationError
  else waitLoop d cap threshold_level timeout_secs [] none readings .timedOut

/-- `if not start_timestamp: start_timestamp = msg.timestamp` (audio.py
lines 174-175): `None` and the integer 0 are both falsy in Python, so a
recorded start timestamp of 0 is overwritten by the next message. -/
def currentStart (start : Option ℕ) (m : Msg) : ℕ :=
  match start with
  | none => m.timestamp
  | some n => if n = 0 then m.timestamp else n

/-- The `while True` loop of `_audio_levels` (audio.py lines 172-183) over
the finite list of messages the bus delivers: each message updates the
start timestamp, then either triggers the overall-timeout `return`
(`timedOut`, message not yielded) or is yielded; if the messages run out
the 2-second poll raises `Queue.Empty` (`stalled`).
`timeout_secs * 1e9` is exact for the magnitudes involved, so it is
modelled as `timeout_secs * 10^9`. -/
def audioLoop (timeout_secs : ℕ) (start : Option ℕ) :
    List Msg → List (List ℚ) × EndKind
  | [] => ([], .stalled)
  | m :: rest =>
      let s := currentStart start m
      if timeout_secs * 1000000000 < m.timestamp - s then ([], .timedOut)
      else
        let r := audioLoop timeout_secs (some s) rest
        (m.levels :: r.1, r.2)

/-- `_audio_levels` (audio.py lines 139-185) as a function from the
delivered messages to the yielded readings and the end kind. -/
def audio_levels (timeout_secs : ℕ) (msgs : List Msg) :
    List (List ℚ) × EndKind :=
  audioLoop timeout_secs none msgs

/-- Full `wait_for_sound` (audio.py lines 66-106): parse
`consecutive_samples`, validate the configuration, compute
`threshold_level = threshold + audio_noise_level`, then run the detection
loop over what `_audio_levels` produces from the delivered messages. -/
def wait_for_sound (timeout_secs : ℕ) (consecutive_samples : ConsecutiveSamples)
    (threshold noise_level : ℚ) (msgs : List Msg) : WaitResult :=
  let p := parseConsecutiveSamples consecutive_samples
  if p.2 < p.1 then .configurationError
  else
    let threshold_level := threshold + noise_level
    let r := audio_levels timeout_secs msgs
    waitLoop p.1 p.2 threshold_level timeout_secs [] none r.1 r.2

/-- Outcome of `ensure_no_glitch` (audio.py lines 109-136): normal return
after the stream exhausts, or the `GlitchDetected` exception carrying the
offending levels and the threshold level (an `Option ℚ`, `none` standing
for the initial `float("inf")`). -/
inductive GlitchResult
  | ok
  | glitch (levels : List ℚ) (threshold_level : Option ℚ)
deriving DecidableEq, Repr

/-- `[l for l in levels if l > threshold_level]` nonempty (audio.py lines
131-132): no finite level exceeds the initial `float("inf")`. -/
def exceedsLevel : Option ℚ → ℚ → Bool
  | none, _ => false
  | some t, l => decide (t < l)

/-- `sum(levels) / len(levels)` (audio.py line 134). -/
def mean (levels : List ℚ) : ℚ :=
  levels.sum / levels.length

/-- The `for levels in _audio_levels(...)` loop of `ensure_no_glitch`
(audio.py lines 127-136): check against the previous threshold first,
then fold the reading into the running average. -/
def glitchLoop (threshold : ℚ) (min_samples : ℕ) (sum_levels : ℚ)
    (num_samples : ℕ) (threshold_level : Option ℚ) :
    List (List ℚ) → GlitchResult
  | [] => .ok
  | levels :: rest =>
      if min_samples < num_samples ∧ levels.any (fun l => exceedsLevel threshold_level l) then
        .glitch levels threshold_level
      else
        let sum' := sum_levels + mean levels
        let num' := num_samples + 1
        glitchLoop threshold min_samples sum' num' (some (threshold + sum' / num')) rest

/-- `ensure_no_glitch` (audio.py lines 109-136) over the readings yielded
by a stream that exhausts normally: `sum_levels = 0`, `num_samples = 0`,
`threshold_level = float("inf")` initially. -/
def ensure_no_glitch (threshold : ℚ) (min_samples : ℕ)
    (readings : List (List ℚ)) : GlitchResult :=
  glitchLoop threshold min_samples 0 0 none readings

/-! Specification-side views of the same code, used to state the claims. -/

/-- The per-reading sound flags of `wait_for_sound` (audio.py line 101). -/
def soundFlags (threshold_level : ℚ) (readings : List (List ℚ)) : List Bool :=
  readings.map (soundFlag threshold_level)

/-- The successive states of the `samples` deque: `windowTrace cap flags`
lists the window before any reading and after each push. -/
def windowTrace (cap : ℕ) (flags : List Bool) : List (List Bool) :=
  List.scanl (pushWindow cap) [] flags

/-- The detection condition of audio.py line 102 holds right after the
`i`-th reading (0-based) is pushed into the sliding window. -/
def hitAt (d cap : ℕ) (threshold_level : ℚ) (readings : List (List ℚ))
    (i : ℕ) : Prop :=
  d ≤ ((windowTrace cap (soundFlags threshold_level readings)).getD (i + 1) []).count true

instance (d cap : ℕ) (t : ℚ) (rs : List (List ℚ)) :
    DecidablePred (hitAt d cap t rs) := fun i =>
  inferInstanceAs (Decidable (d ≤ ((windowTrace cap (soundFlags t rs)).getD (i + 1) []).count true))

/-- Sum of the per-reading channel means, i.e. the value of `sum_levels`
after folding in the given readings (audio.py line 134). -/
def meanSum (rs : List (List ℚ)) : ℚ :=
  (rs.map mean).sum

/-- The `threshold_level` of `ensure_no_glitch` in effect when reading `i`
is examined: `threshold` plus the running average of the means of all
earlier readings (audio.py line 136). -/
def glitchThresholdAt (threshold : ℚ) (rs : List (List ℚ)) (i : ℕ) : ℚ :=
  threshold + meanSum (rs.take i) / i

/-- The glitch condition of audio.py lines 131-132 fires at reading `i`:
enough samples seen, and some channel strictly above the threshold from
the previous average. -/
def glitchTriggerAt (threshold : ℚ) (min_samples : ℕ) (rs : List (List ℚ))
    (i : ℕ) : Prop :=
  min_samples < i ∧
    (rs.getD i []).any (fun l => decide (glitchThresholdAt threshold rs i < l))

instance (threshold : ℚ) (m : ℕ) (rs : List (List ℚ)) :
    DecidablePred (glitchTriggerAt threshold m rs) := fun i =>
  inferInstanceAs (Decidable (m < i ∧ _))

/-- The `threshold_level` local of `ensure_no_glitch` as a function of the
running state: `float("inf")` (`none`) before the first reading, otherwise
`threshold + sum_levels / num_samples`. -/
def mkThr (threshold s : ℚ) (n : ℕ) : Option ℚ :=
  if n = 0 then none else some (threshold + s / n)

/-- The glitch condition relative to a starting state `(s, n)` of
`(sum_levels, num_samples)`; `glitchTrigFrom threshold m 0 0` is the
absolute condition `glitchTriggerAt`. -/
def glitchTrigFrom (threshold : ℚ) (m : ℕ) (s : ℚ) (n : ℕ)
    (rs : List (List ℚ)) (i : ℕ) : Prop :=
  m < n + i ∧
    (rs.getD i []).any
      (fun l => exceedsLevel (mkThr threshold (s + meanSum (rs.take i)) (n + i)) l)

/-- A message is within the overall deadline measured from `base`
(negation of the condition on audio.py line 176). -/
def okMsg (timeout_secs base : ℕ) (m : Msg) : Bool :=
  decide (m.timestamp - base ≤ timeout_secs * 1000000000)

/-- The successive values of `start_timestamp` used by the loop of
`_audio_levels` (audio.py lines 172-177), one per message examined; the
trace stops after the message that triggers the overall-timeout return. -/
def startTrace (timeout_secs : ℕ) (start : Option ℕ) : List Msg → List ℕ
  | [] => []
  | m :: rest =>
      let s := currentStart start m
      if timeout_secs * 1000000000 < m.timestamp - s then [s]
      else s :: startTrace timeout_secs (some s) rest

/-- Externally visible pipeline events of one `_audio_levels` run:
`set_state(PLAYING)` (line 168), a yield of a reading (line 183), and
`set_state(NULL)` in the `finally` block (line 185). -/
inductive PipelineAction
  | setPlaying
  | yielded (levels : List ℚ)
  | setNull
deriving DecidableEq, Repr

/-- The generator body of `_audio_levels` (audio.py lines 170-185) as a
trace of pipeline events.  `breakAfter = some k` models a consumer that
stops iterating after receiving the `k`-th reading (Python then throws
`GeneratorExit` at the paused yield); every exit path — message list
exhausted (`Queue.Empty`), overall timeout `return`, consumer break —
runs the `finally` block, emitting `setNull`. -/
def levelsBody (timeout_secs : ℕ) (breakAfter : Option ℕ) (start : Option ℕ)
    (got : ℕ) : List Msg → List PipelineAction
  | [] => [.setNull]
  | m :: rest =>
      let s := currentStart start m
      if timeout_secs * 1000000000 < m.timestamp - s then [.setNull]
      else if breakAfter = some (got + 1) then [.yielded m.levels, .setNull]
      else .yielded m.levels :: levelsBody timeout_secs breakAfter (some s) (got + 1) rest

/-- A whole `_audio_levels` run as a pipeline-event trace: the pipeline is
set to PLAYING, then the generator body runs to one of its exits. -/
def audioLevelsActions (timeout_secs : ℕ) (breakAfter : Option ℕ)
    (msgs : List Msg) : List PipelineAction :=
  .setPlaying :: levelsBody timeout_secs breakAfter none 0 msgs

/-! Unfolding equations for the loop bodies. -/

lemma waitLoop_cons (d cap : ℕ) (thr : ℚ) (T : ℕ) (samples : List Bool)
    (last : Option (List ℚ)) (levels : List ℚ) (rest : List (List ℚ)) (e : EndKind) :
    waitLoop d cap thr T samples last (levels :: rest) e =
      if d ≤ (pushWindow cap samples (soundFlag thr levels)).count true
      then .detected levels
      else waitLoop d cap thr T (pushWindow cap samples (soundFlag thr levels))
        (some levels) rest e := rfl

lemma audioLoop_cons (T : ℕ) (start : Option ℕ) (m : Msg) (rest : List Msg) :
    audioLoop T start (m :: rest) =
      if T * 1000000000 < m.timestamp - currentStart start m then ([], .timedOut)
      else ((m.levels :: (audioLoop T (some (currentStart start m)) rest).1,
             (audioLoop T (some (currentStart start m)) rest).2)) := rfl

lemma startTrace_cons (T : ℕ) (start : Option ℕ) (m : Msg) (rest : List Msg) :
    startTrace T start (m :: rest) =
      if T * 1000000000 < m.timestamp - currentStart start m
      then [currentStart start m]
      else currentStart start m :: startTrace T (some (currentStart start m)) rest := rfl

lemma levelsBody_cons (T : ℕ) (brk : Option ℕ) (start : Option ℕ) (got : ℕ)
    (m : Msg) (rest : List Msg) :
    levelsBody T brk start got (m :: rest) =
      if T * 1000000000 < m.timestamp - currentStart start m then [.setNull]
      else if brk = some (got + 1) then [.yielded m.levels, .setNull]
      else .yielded m.levels ::
        levelsBody T brk (some (currentStart start m)) (got + 1) rest := rfl

lemma glitchLoop_cons (threshold : ℚ) (m : ℕ) (s : ℚ) (n : ℕ) (t : Option ℚ)
    (levels : List ℚ) (rest : List (List ℚ)) :
    glitchLoop threshold m s n t (levels :: rest) =
      if m < n ∧ levels.any (fun l => exceedsLevel t l)
      then .glitch levels t
      else glitchLoop threshold m (s + mean levels) (n + 1)
        (some (threshold + (s + mean levels) / ((n + 1 : ℕ) : ℚ))) rest := rfl

lemma wait_for_sound_eq (T : ℕ) (cs : ConsecutiveSamples) (th nl : ℚ)
    (msgs : List Msg) :
    wait_for_sound T cs th nl msgs =
      if (parseConsecutiveSamples cs).2 < (parseConsecutiveSamples cs).1
      then .configurationError
      else waitLoop (parseConsecutiveSamples cs).1 (parseConsecutiveSamples cs).2
        (th + nl) T [] none (audio_levels T msgs).1 (audio_levels T msgs).2 := rfl

/-! Helper lemmas about the sliding window. -/

lemma pushWindow_length (cap : ℕ) (w : List Bool) (b : Bool) :
    (pushWindow cap w b).length = min (w.length + 1) cap := by
  simp [pushWindow]
  omega

lemma mem_scanl_pushWindow_length (cap : ℕ) :
    ∀ (fs : List Bool) (init : List Bool), init.length ≤ cap →
      ∀ w ∈ List.scanl (pushWindow cap) init fs, w.length ≤ cap := by
  intro fs
  induction fs with
  | nil =>
      intro init h w hw
      simp [List.scanl] at hw
      exact hw ▸ h
  | cons a l ih =>
      intro init h w hw
      rw [List.scanl_cons] at hw
      rcases List.mem_cons.mp hw with hw | hw
      · exact hw ▸ h
      · exact ih (pushWindow cap init a) (by rw [pushWindow_length]; omega) w hw

/-- C9: throughout any `wait_for_sound` call the `samples` deque (whose
successive states are `windowTrace cap flags`) never holds more than
`considered_samples = cap` entries, and appending to a full window evicts
exactly the oldest entry (FIFO sliding-window semantics). -/
theorem wait_for_sound_window_invariant (cap : ℕ) (flags : List Bool)
    (w : List Bool) (hw : w ∈ windowTrace cap flags)
    (v : List Bool) (b : Bool) (hv : v.length = cap) (hcap : 0 < cap) :
    w.length ≤ cap ∧ pushWindow cap v b = v.drop 1 ++ [b] := by
  constructor
  · exact mem_scanl_pushWindow_length cap flags [] (by simp) w hw
  · cases v with
    | nil => simp at hv; omega
    | cons x xs =>
        subst hv
        simp [pushWindow]

/-- Witness for C9 at `cap = 2`. -/
theorem wait_for_sound_window_invariant_witness :
    [true].length ≤ 2 ∧ pushWindow 2 [true, false] true = [true, false].drop 1 ++ [true] :=
  wait_for_sound_window_invariant 2 [true, false, true] [true] (by decide)
    [true, false] true (by decide) (by decide)

/-- C4: whenever the parsed `consecutive_samples` pair has
`sound_detected_samples > considered_samples`, `wait_for_sound` raises
`ConfigurationError` uniformly in the delivered messages — the result does
not depend on the stream, which is never consulted (the check at audio.py
lines 88-90 precedes the loop that first advances the generator). -/
theorem wait_for_sound_config_error_before_stream (cs : ConsecutiveSamples)
    (h : (parseConsecutiveSamples cs).2 < (parseConsecutiveSamples cs).1)
    (timeout_secs : ℕ) (threshold noise_level : ℚ) (msgs : List Msg) :
    wait_for_sound timeout_secs cs threshold noise_level msgs = .configurationError := by
  rw [wait_for_sound_eq, if_pos h]

/-- Witness for C4 at the spec's example `"15/10"`. -/
theorem wait_for_sound_config_error_before_stream_witness :
    (parseConsecutiveSamples (.frac 15 10)).2 < (parseConsecutiveSamples (.frac 15 10)).1 ∧
    wait_for_sound 10 (.frac 15 10) 20 (-60) [] = .configurationError :=
  ⟨by decide, wait_for_sound_config_error_before_stream (.frac 15 10) (by decide) 10 20 (-60) []⟩

/-- C10: if the parsed detection quota is 0 (e.g. `"0/5"`), the window's
true-count (0) already meets it after the first push, so `wait_for_sound`
returns the first reading's levels regardless of the threshold. -/
theorem wait_for_sound_zero_quota (cs : ConsecutiveSamples)
    (h : (parseConsecutiveSamples cs).1 = 0) (timeout_secs : ℕ)
    (threshold_level : ℚ) (r : List ℚ) (rest : List (List ℚ)) :
    waitForSoundOnReadings timeout_secs (parseConsecutiveSamples cs).1
      (parseConsecutiveSamples cs).2 threshold_level (r :: rest) = .detected r := by
  rw [h]
  simp [waitForSoundOnReadings, waitLoop_cons]

/-- Witness for C10 at `"0/5"` with a reading far below the threshold. -/
theorem wait_for_sound_zero_quota_witness :
    (parseConsecutiveSamples (.frac 0 5)).1 = 0 ∧
    waitForSoundOnReadings 10 (parseConsecutiveSamples (.frac 0 5)).1
      (parseConsecutiveSamples (.frac 0 5)).2 0 [[(-100 : ℚ)]] = .detected [-100] :=
  ⟨rfl, wait_for_sound_zero_quota (.frac 0 5) rfl 10 0 [-100] []⟩

/-- C3 (code bug): on a stream exhausting with zero readings the code does
NOT raise `LowAudio`: the `levels` local of audio.py line 106 is unbound
and Python raises `UnboundLocalError` instead, an error distinct from
`LowAudio`.  On a nonempty exhausted stream the `LowAudio` payload is the
last observed levels, the effective threshold, and the configured
`timeout_secs` (here 7, not any elapsed time), as the concrete third
conjunct shows. -/
theorem wait_for_sound_empty_stream_bug :
    (∀ thr : ℚ, waitForSoundOnReadings 7 10 20 thr [] = .unboundLocalError) ∧
    (∀ lv t s, (WaitResult.unboundLocalError : WaitResult) ≠ .lowAudio lv t s) ∧
    waitForSoundOnReadings 7 10 20 (0 : ℚ) [[-1], [-2]] = .lowAudio [-2] 0 7 := by
  refine ⟨fun thr => ?_, fun lv t s h => WaitResult.noConfusion h, by decide⟩
  simp [waitForSoundOnReadings, waitLoop]

/-! Cleanup of the pipeline (claim C8). -/

lemma levelsBody_shape (T : ℕ) (brk : Option ℕ) :
    ∀ (msgs : List Msg) (start : Option ℕ) (got : ℕ),
      ∃ pre, levelsBody T brk start got msgs = pre ++ [.setNull] ∧
        ∀ a ∈ pre, ∃ lv, a = .yielded lv := by
  intro msgs
  induction msgs with
  | nil => exact fun start got => ⟨[], rfl, by simp⟩
  | cons m rest ih =>
      intro start got
      rw [levelsBody_cons]
      by_cases h1 : T * 1000000000 < m.timestamp - currentStart start m
      · exact ⟨[], by rw [if_pos h1]; rfl, by simp⟩
      · rw [if_neg h1]
        by_cases h2 : brk = some (got + 1)
        · exact ⟨[.yielded m.levels], by rw [if_pos h2]; rfl, by simp⟩
        · obtain ⟨pre, hpre, hall⟩ := ih (some (currentStart start m)) (got + 1)
          refine ⟨.yielded m.levels :: pre, ?_, ?_⟩
          · rw [if_neg h2, hpre]
            rfl
          · intro a ha
            rcases List.mem_cons.mp ha with ha | ha
            · exact ⟨m.levels, ha⟩
            · exact hall a ha

/-- C8: on every exit path of a `_audio_levels` iteration — message list
exhausted (the poll's `Queue.Empty`), overall-timeout return, or consumer
break after any number of readings — the `finally` block transitions the
pipeline to NULL exactly once, and that transition is the last pipeline
event before control returns. -/
theorem audio_levels_cleanup_exactly_once (timeout_secs : ℕ)
    (breakAfter : Option ℕ) (msgs : List Msg) :
    (audioLevelsActions timeout_secs breakAfter msgs).count .setNull = 1 ∧
    (audioLevelsActions timeout_secs breakAfter msgs).getLast? = some .setNull := by
  obtain ⟨pre, hpre, hall⟩ := levelsBody_shape timeout_secs breakAfter msgs none 0
  have h0 : pre.count PipelineAction.setNull = 0 := by
    refine List.count_eq_zero.mpr (fun hmem => ?_)
    obtain ⟨lv, hlv⟩ := hall _ hmem
    exact PipelineAction.noConfusion hlv
  constructor
  · simp [audioLevelsActions, hpre, List.count_append, List.count_cons, h0]
  · show (PipelineAction.setPlaying :: levelsBody timeout_secs breakAfter none 0 msgs).getLast?
      = some .setNull
    rw [hpre, show PipelineAction.setPlaying :: (pre ++ [PipelineAction.setNull])
      = (PipelineAction.setPlaying :: pre) ++ [PipelineAction.setNull] from rfl]
    exact List.getLast?_concat _

/-! The stalled pipeline (claim C7). -/

lemma waitLoop_stalled_result (d cap : ℕ) (thr : ℚ) (T : ℕ) :
    ∀ (rs : List (List ℚ)) (samples : List Bool) (last : Option (List ℚ)),
      waitLoop d cap thr T samples last rs .stalled = .queueEmpty ∨
        ∃ lv, waitLoop d cap thr T samples last rs .stalled = .detected lv := by
  intro rs
  induction rs with
  | nil => exact fun samples last => Or.inl rfl
  | cons r rest ih =>
      intro samples last
      rw [waitLoop_cons]
      by_cases hd : d ≤ (pushWindow cap samples (soundFlag thr r)).count true
      · exact Or.inr ⟨r, by rw [if_pos hd]⟩
      · rw [if_neg hd]
        exact ih _ _

/-- C7: when no further message arrives within the 2-second poll before
the overall timeout condition has fired (the generator's message list is
exhausted while still `stalled`), the `Queue.Empty` exception propagates:
`wait_for_sound` then either already detected sound or surfaces
`queueEmpty`, an outcome distinct from every `LowAudio` result, and the
`stalled` end kind is distinct from the normal `timedOut` exhaustion. -/
theorem audio_stall_distinct_error (timeout_secs : ℕ) (cs : ConsecutiveSamples)
    (threshold noise_level : ℚ) (msgs : List Msg)
    (hcs : (parseConsecutiveSamples cs).1 ≤ (parseConsecutiveSamples cs).2)
    (hstall : (audio_levels timeout_secs msgs).2 = .stalled) :
    (wait_for_sound timeout_secs cs threshold noise_level msgs = .queueEmpty ∨
      ∃ lv, wait_for_sound timeout_secs cs threshold noise_level msgs = .detected lv) ∧
    (∀ lv t s, (WaitResult.queueEmpty : WaitResult) ≠ .lowAudio lv t s) ∧
    EndKind.stalled ≠ EndKind.timedOut := by
  refine ⟨?_, fun lv t s h => WaitResult.noConfusion h,
    fun h => EndKind.noConfusion h⟩
  rw [wait_for_sound_eq, if_neg (Nat.not_lt.mpr hcs), hstall]
  exact waitLoop_stalled_result _ _ _ _ _ _ _

/-- Witness for C7: a single in-deadline message, then silence. -/
theorem audio_stall_distinct_error_witness :
    (wait_for_sound 10 (.frac 1 2) 100 0 [⟨5, [0]⟩] = .queueEmpty ∨
      ∃ lv, wait_for_sound 10 (.frac 1 2) 100 0 [⟨5, [0]⟩] = .detected lv) ∧
    (∀ lv t s, (WaitResult.queueEmpty : WaitResult) ≠ .lowAudio lv t s) ∧
    EndKind.stalled ≠ EndKind.timedOut :=
  audio_stall_distinct_error 10 (.frac 1 2) 100 0 [⟨5, [0]⟩] (by decide) (by decide)

/-! The overall-timeout boundary of the stream (claims C5 and C6). -/

lemma audioLoop_from_nonzero (T b : ℕ) (hb : b ≠ 0) :
    ∀ msgs : List Msg,
      audioLoop T (some b) msgs =
        ((msgs.takeWhile (okMsg T b)).map Msg.levels,
          if msgs.all (okMsg T b) then .stalled else .timedOut) := by
  intro msgs
  induction msgs with
  | nil => rfl
  | cons m rest ih =>
      have hs : currentStart (some b) m = b := by simp [currentStart, hb]
      rw [audioLoop_cons, hs]
      by_cases h1 : T * 1000000000 < m.timestamp - b
      · have hok : okMsg T b m = false := by
          simp [okMsg]
          omega
        rw [if_pos h1]
        simp [List.takeWhile_cons, List.all_cons, hok]
      · have hok : okMsg T b m = true := by
          simp [okMsg]
          omega
        rw [if_neg h1, ih]
        simp [List.takeWhile_cons, List.all_cons, hok]

/-- C5 counterexample: with messages timestamped 0 and 3·10⁹ ns and a
1-second timeout, the second message exceeds the deadline measured from
the first reading's timestamp, yet the stream yields it anyway and never
ends normally (the falsy test on audio.py line 174 re-established the
start timestamp). -/
theorem audio_levels_yields_past_deadline_cex :
    (⟨3000000000, [0]⟩ : Msg).timestamp - (⟨0, [0]⟩ : Msg).timestamp
        > 1 * 1000000000 ∧
    (audio_levels 1 [⟨0, [0]⟩, ⟨3000000000, [0]⟩]).1.length = 2 ∧
    (audio_levels 1 [⟨0, [0]⟩, ⟨3000000000, [0]⟩]).2 ≠ .timedOut := by
  decide

/-- C5 as amended: provided the first reading's timestamp is nonzero, the
stream yields, in order, exactly the readings whose timestamps are within
`timeout_secs * 1e9` of the first reading's, and it ends normally
(`timedOut`, triggering reading not yielded) iff some delivered message
exceeds that deadline; otherwise it ends `stalled`. -/
theorem audio_levels_timeout_boundary (timeout_secs : ℕ) (m0 : Msg)
    (rest : List Msg) (h : m0.timestamp ≠ 0) :
    (audio_levels timeout_secs (m0 :: rest)).1
        = ((m0 :: rest).takeWhile (okMsg timeout_secs m0.timestamp)).map Msg.levels ∧
    ((audio_levels timeout_secs (m0 :: rest)).2 = .timedOut ↔
      ∃ m ∈ m0 :: rest, okMsg timeout_secs m0.timestamp m = false) := by
  have hok0 : okMsg timeout_secs m0.timestamp m0 = true := by
    simp [okMsg]
  have hstep : audio_levels timeout_secs (m0 :: rest)
      = (m0.levels :: (audioLoop timeout_secs (some m0.timestamp) rest).1,
         (audioLoop timeout_secs (some m0.timestamp) rest).2) := by
    rw [audio_levels, audioLoop_cons]
    have hs : currentStart none m0 = m0.timestamp := rfl
    rw [hs, if_neg (by omega)]
  rw [hstep, audioLoop_from_nonzero timeout_secs m0.timestamp h rest]
  constructor
  · simp [List.takeWhile_cons, hok0]
  · by_cases hall : rest.all (okMsg timeout_secs m0.timestamp)
    · rw [if_pos hall]
      simp only [List.all_eq_true] at hall
      constructor
      · intro hcontra
        exact EndKind.noConfusion hcontra
      · rintro ⟨m, hm, hbad⟩
        rcases List.mem_cons.mp hm with hm | hm
        · rw [hm, hok0] at hbad
          exact Bool.noConfusion hbad
        · rw [hall m hm] at hbad
          exact Bool.noConfusion hbad
    · rw [if_neg hall]
      simp only [List.all_eq_true] at hall
      push_neg at hall
      obtain ⟨m, hm, hbad⟩ := hall
      have hbad' : okMsg timeout_secs m0.timestamp m = false := by
        simpa using hbad
      exact ⟨fun _ => ⟨m, List.mem_cons_of_mem _ hm, hbad'⟩, fun _ => rfl⟩

/-- Witness for the amended C5: first reading at 5 ns, second one past the
1-second deadline. -/
theorem audio_levels_timeout_boundary_witness :
    (audio_levels 1 [⟨5, [0]⟩, ⟨2000000006, [1]⟩]).1
        = (([⟨5, [0]⟩, ⟨2000000006, [1]⟩] : List Msg).takeWhile (okMsg 1 5)).map Msg.levels ∧
    ((audio_levels 1 [⟨5, [0]⟩, ⟨2000000006, [1]⟩]).2 = .timedOut ↔
      ∃ m ∈ ([⟨5, [0]⟩, ⟨2000000006, [1]⟩] : List Msg), okMsg 1 5 m = false) :=
  audio_levels_timeout_boundary 1 ⟨5, [0]⟩ [⟨2000000006, [1]⟩] (by decide)

/-- C6 counterexample: when the first message's timestamp is 0,
`start_timestamp` is falsy again on the next iteration (audio.py
line 174), so the start is re-established at the second reading: the
start values used are `[0, 7]`, not `[0, 0]` as the claim requires. -/
theorem start_timestamp_zero_reestablished_cex :
    startTrace 10 none [⟨0, []⟩, ⟨7, []⟩] = [0, 7] ∧
    startTrace 10 none [⟨0, []⟩, ⟨7, []⟩] ≠ [0, 0] := by
  decide

lemma startTrace_from_nonzero (T b : ℕ) (hb : b ≠ 0) :
    ∀ msgs : List Msg, ∀ s ∈ startTrace T (some b) msgs, s = b := by
  intro msgs
  induction msgs with
  | nil => intro s hs; exact absurd hs (List.not_mem_nil s)
  | cons m rest ih =>
      intro s hs
      have hcur : currentStart (some b) m = b := by simp [currentStart, hb]
      rw [startTrace_cons, hcur] at hs
      by_cases h1 : T * 1000000000 < m.timestamp - b
      · rw [if_pos h1] at hs
        simpa using hs
      · rw [if_neg h1] at hs
        rcases List.mem_cons.mp hs with hs | hs
        · exact hs
        · exact ih s hs

/-- C6 as amended: provided the first reading's timestamp is nonzero,
`start_timestamp` equals that timestamp at every iteration — it is never
re-established — so the overall timeout is measured from the first
reading.  (A zero first timestamp is falsy in Python and is re-established
by the next reading, as the counterexample shows.) -/
theorem start_timestamp_first_nonzero (timeout_secs : ℕ) (m0 : Msg)
    (rest : List Msg) (h : m0.timestamp ≠ 0) :
    ∀ s ∈ startTrace timeout_secs none (m0 :: rest), s = m0.timestamp := by
  intro s hs
  have hcur : currentStart none m0 = m0.timestamp := rfl
  rw [startTrace_cons, hcur] at hs
  by_cases h1 : timeout_secs * 1000000000 < m0.timestamp - m0.timestamp
  · exact absurd h1 (by omega)
  · rw [if_neg h1] at hs
    rcases List.mem_cons.mp hs with hs | hs
    · exact hs
    · exact startTrace_from_nonzero timeout_secs m0.timestamp h rest s hs

/-- Witness for the amended C6: both recorded start values equal the first
reading's timestamp 5. -/
theorem start_timestamp_first_nonzero_witness :
    (startTrace 10 none [⟨5, []⟩, ⟨6, []⟩]).getD 1 0 = 5 :=
  start_timestamp_first_nonzero 10 ⟨5, []⟩ [⟨6, []⟩] (by decide) _ (by decide)

/-! The first-hit characterisation of `wait_for_sound` (claim C1). -/

lemma waitLoop_nil_timedOut (d cap : ℕ) (thr : ℚ) (T : ℕ) (samples : List Bool)
    (last : Option (List ℚ)) :
    waitLoop d cap thr T samples last [] .timedOut =
      (match last with
       | some levels => .lowAudio levels thr T
       | none => .unboundLocalError) := rfl

lemma waitLoop_nil_stalled (d cap : ℕ) (thr : ℚ) (T : ℕ) (samples : List Bool)
    (last : Option (List ℚ)) :
    waitLoop d cap thr T samples last [] .stalled = .queueEmpty := rfl

lemma scanl_getD_zero {α β : Type} (f : α → β → α) (b : α) (l : List β) (x : α) :
    (List.scanl f b l).getD 0 x = b := by
  cases l <;> simp [List.scanl_nil, List.scanl_cons]

lemma waitLoop_detected_iff (d cap : ℕ) (thr : ℚ) (T : ℕ) (e : EndKind) :
    ∀ (rs : List (List ℚ)) (win : List Bool) (last : Option (List ℚ)) (lv : List ℚ),
      waitLoop d cap thr T win last rs e = .detected lv ↔
        ∃ i, i < rs.length ∧ lv = rs.getD i [] ∧
          d ≤ ((List.scanl (pushWindow cap) win (rs.map (soundFlag thr))).getD (i + 1) []).count true ∧
          ∀ j < i,
            ¬ d ≤ ((List.scanl (pushWindow cap) win (rs.map (soundFlag thr))).getD (j + 1) []).count true := by
  intro rs
  induction rs with
  | nil =>
      intro win last lv
      constructor
      · intro hres
        cases e with
        | timedOut =>
            rw [waitLoop_nil_timedOut] at hres
            cases last with
            | none => exact WaitResult.noConfusion hres
            | some x => exact WaitResult.noConfusion hres
        | stalled =>
            rw [waitLoop_nil_stalled] at hres
            exact WaitResult.noConfusion hres
      · rintro ⟨i, hi, -⟩
        exact absurd hi (by simp)
  | cons r rs ih =>
      intro win last lv
      have hA : ∀ k, (List.scanl (pushWindow cap) win ((r :: rs).map (soundFlag thr))).getD (k + 1) []
          = (List.scanl (pushWindow cap) (pushWindow cap win (soundFlag thr r))
              (rs.map (soundFlag thr))).getD k [] := by
        intro k
        rw [List.map_cons, List.scanl_cons, List.singleton_append, List.getD_cons_succ]
      have hB : (List.scanl (pushWindow cap) (pushWindow cap win (soundFlag thr r))
          (rs.map (soundFlag thr))).getD 0 [] = pushWindow cap win (soundFlag thr r) :=
        scanl_getD_zero _ _ _ _
      rw [waitLoop_cons]
      by_cases hd : d ≤ (pushWindow cap win (soundFlag thr r)).count true
      · rw [if_pos hd]
        constructor
        · intro hres
          have hlv : r = lv := by
            cases hres
            rfl
          refine ⟨0, by simp, by simp [hlv.symm], ?_, fun j hj => absurd hj (by omega)⟩
          rw [hA 0, hB]
          exact hd
        · rintro ⟨i, hi, hlv, hhit, hmin⟩
          cases i with
          | zero => simp [hlv]
          | succ k =>
              exfalso
              apply hmin 0 (Nat.succ_pos k)
              rw [hA 0, hB]
              exact hd
      · rw [if_neg hd, ih (pushWindow cap win (soundFlag thr r)) (some r) lv]
        constructor
        · rintro ⟨i, hi, hlv, hhit, hmin⟩
          refine ⟨i + 1, by simpa using hi, by simpa using hlv, ?_, ?_⟩
          · rw [hA (i + 1)]
            exact hhit
          · intro j hj
            cases j with
            | zero =>
                rw [hA 0, hB]
                exact hd
            | succ k =>
                rw [hA (k + 1)]
                exact hmin k (by omega)
        · rintro ⟨i, hi, hlv, hhit, hmin⟩
          cases i with
          | zero =>
              exfalso
              rw [hA 0, hB] at hhit
              exact hd hhit
          | succ k =>
              refine ⟨k, by simpa using hi, by simpa using hlv, ?_, ?_⟩
              · rw [hA (k + 1)] at hhit
                exact hhit
              · intro j hj
                have := hmin (j + 1) (by omega)
                rw [hA (j + 1)] at this
                exact this

/-- C1: for every reading sequence of a normally exhausting stream,
`wait_for_sound` (with a valid `detected ≤ window` configuration, covering
both the `D = W` and `D < W` forms of `consecutive_samples`) returns
success exactly with the levels of the first reading whose push makes the
sliding window's true-count reach `sound_detected_samples`, where a
reading's flag is true iff some channel level is ≥ the effective
threshold; success occurs iff some prefix of the readings reaches the
count. -/
theorem wait_for_sound_detects_first_window_hit (timeout_secs d cap : ℕ)
    (threshold_level : ℚ) (readings : List (List ℚ)) (h : d ≤ cap) :
    (∀ lv, waitForSoundOnReadings timeout_secs d cap threshold_level readings = .detected lv ↔
      ∃ i, i < readings.length ∧ lv = readings.getD i [] ∧
        hitAt d cap threshold_level readings i ∧
        ∀ j < i, ¬ hitAt d cap threshold_level readings j) ∧
    ((∃ lv, waitForSoundOnReadings timeout_secs d cap threshold_level readings = .detected lv) ↔
      ∃ i, i < readings.length ∧ hitAt d cap threshold_level readings i) := by
  have hmain : ∀ lv,
      waitForSoundOnReadings timeout_secs d cap threshold_level readings = .detected lv ↔
        ∃ i, i < readings.length ∧ lv = readings.getD i [] ∧
          hitAt d cap threshold_level readings i ∧
          ∀ j < i, ¬ hitAt d cap threshold_level readings j := by
    intro lv
    have hno : ¬ cap < d := Nat.not_lt.mpr h
    rw [show waitForSoundOnReadings timeout_secs d cap threshold_level readings
        = waitLoop d cap threshold_level timeout_secs [] none readings .timedOut by
      rw [waitForSoundOnReadings, if_neg hno]]
    exact waitLoop_detected_iff d cap threshold_level timeout_secs .timedOut readings [] none lv
  refine ⟨hmain, ?_, ?_⟩
  · rintro ⟨lv, hlv⟩
    obtain ⟨i, h1, -, h3, -⟩ := (hmain lv).mp hlv
    exact ⟨i, h1, h3⟩
  · rintro ⟨i, h1, h2⟩
    have hex : ∃ j, hitAt d cap threshold_level readings j := ⟨i, h2⟩
    exact ⟨readings.getD (Nat.find hex) [],
      (hmain _).mpr ⟨Nat.find hex, lt_of_le_of_lt (Nat.find_min' hex h2) h1, rfl,
        Nat.find_spec hex, fun j hj => Nat.find_min hex hj⟩⟩

/-- Witness for C1: a single loud reading is detected at index 0. -/
theorem wait_for_sound_detects_first_window_hit_witness :
    waitForSoundOnReadings 10 1 2 0 [[(5 : ℚ)]] = .detected [5] :=
  ((wait_for_sound_detects_first_window_hit 10 1 2 0 [[(5 : ℚ)]] (by decide)).1 [5]).mpr
    ⟨0, by decide, by decide, by decide, fun j hj => absurd hj (by omega)⟩

/-! The glitch characterisation of `ensure_no_glitch` (claim C2). -/

lemma mkThr_succ (threshold s : ℚ) (n : ℕ) :
    mkThr threshold s (n + 1) = some (threshold + s / ((n + 1 : ℕ) : ℚ)) := by
  simp [mkThr]

lemma meanSum_cons (r : List ℚ) (l : List (List ℚ)) :
    meanSum (r :: l) = mean r + meanSum l := by
  simp [meanSum]

lemma glitchLoop_ok_or_glitch (threshold : ℚ) (m : ℕ) :
    ∀ (rs : List (List ℚ)) (s : ℚ) (n : ℕ) (t : Option ℚ),
      glitchLoop threshold m s n t rs = .ok ∨
        ∃ lv u, glitchLoop threshold m s n t rs = .glitch lv u := by
  intro rs
  induction rs with
  | nil => exact fun s n t => Or.inl rfl
  | cons r rest ih =>
      intro s n t
      rw [glitchLoop_cons]
      by_cases hcond : m < n ∧ r.any (fun l => exceedsLevel t l)
      · exact Or.inr ⟨r, t, by rw [if_pos hcond]⟩
      · rw [if_neg hcond]
        exact ih _ _ _

lemma glitchLoop_glitch_iff (threshold : ℚ) (m : ℕ) :
    ∀ (rs : List (List ℚ)) (s : ℚ) (n : ℕ) (lv : List ℚ) (t : Option ℚ),
      glitchLoop threshold m s n (mkThr threshold s n) rs = .glitch lv t ↔
        ∃ i, i < rs.length ∧ lv = rs.getD i [] ∧
          t = mkThr threshold (s + meanSum (rs.take i)) (n + i) ∧
          glitchTrigFrom threshold m s n rs i ∧
          ∀ j < i, ¬ glitchTrigFrom threshold m s n rs j := by
  intro rs
  induction rs with
  | nil =>
      intro s n lv t
      constructor
      · intro hres
        exact GlitchResult.noConfusion hres
      · rintro ⟨i, hi, -⟩
        exact absurd hi (by simp)
  | cons r rs ih =>
      intro s n lv t
      have htrig0 : glitchTrigFrom threshold m s n (r :: rs) 0 ↔
          (m < n ∧ r.any (fun l => exceedsLevel (mkThr threshold s n) l) = true) := by
        simp [glitchTrigFrom, meanSum]
      have htrigS : ∀ i, glitchTrigFrom threshold m s n (r :: rs) (i + 1) ↔
          glitchTrigFrom threshold m (s + mean r) (n + 1) rs i := by
        intro i
        simp only [glitchTrigFrom, List.getD_cons_succ, List.take_succ_cons,
          meanSum_cons]
        rw [show s + (mean r + meanSum (rs.take i)) = s + mean r + meanSum (rs.take i) by
          ring, show n + (i + 1) = n + 1 + i by omega]
      have hshift : ∀ i, mkThr threshold (s + meanSum ((r :: rs).take (i + 1))) (n + (i + 1))
          = mkThr threshold (s + mean r + meanSum (rs.take i)) (n + 1 + i) := by
        intro i
        rw [List.take_succ_cons, meanSum_cons,
          show s + (mean r + meanSum (rs.take i)) = s + mean r + meanSum (rs.take i) by ring,
          show n + (i + 1) = n + 1 + i by omega]
      rw [glitchLoop_cons]
      by_cases hcond : m < n ∧ r.any (fun l => exceedsLevel (mkThr threshold s n) l)
      · rw [if_pos hcond]
        constructor
        · intro hres
          injection hres with h1 h2
          refine ⟨0, by simp, by simp [← h1], ?_, htrig0.mpr (by simpa using hcond),
            fun j hj => absurd hj (by omega)⟩
          rw [← h2]
          simp [meanSum]
        · rintro ⟨i, hi, hlv, ht, htrig, hmin⟩
          cases i with
          | zero =>
              rw [hlv, ht]
              simp [meanSum]
          | succ k =>
              exfalso
              exact hmin 0 (Nat.succ_pos k) (htrig0.mpr (by simpa using hcond))
      · rw [if_neg hcond,
          show (some (threshold + (s + mean r) / ((n + 1 : ℕ) : ℚ)))
            = mkThr threshold (s + mean r) (n + 1) from (mkThr_succ _ _ _).symm,
          ih (s + mean r) (n + 1) lv t]
        constructor
        · rintro ⟨i, hi, hlv, ht, htrig, hmin⟩
          refine ⟨i + 1, by simpa using hi, by simpa using hlv, ?_,
            (htrigS i).mpr htrig, ?_⟩
          · rw [hshift i]
            exact ht
          · intro j hj
            cases j with
            | zero =>
                intro hc
                exact hcond (by simpa using htrig0.mp hc)
            | succ k =>
                intro hc
                exact hmin k (by omega) ((htrigS k).mp hc)
        · rintro ⟨i, hi, hlv, ht, htrig, hmin⟩
          cases i with
          | zero =>
              exfalso
              exact hcond (by simpa using htrig0.mp htrig)
          | succ k =>
              refine ⟨k, by simpa using hi, by simpa using hlv, ?_,
                (htrigS k).mp htrig, fun j hj hc => ?_⟩
              · rw [hshift k] at ht
                exact ht
              · exact hmin (j + 1) (by omega) ((htrigS j).mpr hc)

lemma glitchTrigFrom_zero_iff (threshold : ℚ) (m : ℕ) (rs : List (List ℚ)) (i : ℕ) :
    glitchTrigFrom threshold m 0 0 rs i ↔ glitchTriggerAt threshold m rs i := by
  cases i with
  | zero => simp [glitchTrigFrom, glitchTriggerAt]
  | succ k =>
      simp [glitchTrigFrom, glitchTriggerAt, mkThr, glitchThresholdAt, exceedsLevel]

/-- C2: `ensure_no_glitch` checks a reading against the threshold from the
PREVIOUS average (only once `num_samples > min_samples`) before folding
the reading in: it raises `GlitchDetected` carrying the offending levels
and `threshold + (sum of earlier per-reading means) / (their count)`
exactly at the first reading where some channel strictly exceeds that
value, and returns normally iff no reading triggers.  (`hne` restricts to
readings with at least one channel, on which the rational model agrees
with the Python float code — an empty reading would make Python raise
`ZeroDivisionError` at audio.py line 134.) -/
theorem ensure_no_glitch_characterisation (threshold : ℚ) (min_samples : ℕ)
    (readings : List (List ℚ)) (hne : ∀ x ∈ readings, x ≠ []) :
    (∀ lv t, ensure_no_glitch threshold min_samples readings = .glitch lv t ↔
      ∃ i, i < readings.length ∧ lv = readings.getD i [] ∧
        t = some (glitchThresholdAt threshold readings i) ∧
        glitchTriggerAt threshold min_samples readings i ∧
        ∀ j < i, ¬ glitchTriggerAt threshold min_samples readings j) ∧
    (ensure_no_glitch threshold min_samples readings = .ok ↔
      ∀ i, i < readings.length → ¬ glitchTriggerAt threshold min_samples readings i) := by
  have hglitch : ∀ lv t, ensure_no_glitch threshold min_samples readings = .glitch lv t ↔
      ∃ i, i < readings.length ∧ lv = readings.getD i [] ∧
        t = some (glitchThresholdAt threshold readings i) ∧
        glitchTriggerAt threshold min_samples readings i ∧
        ∀ j < i, ¬ glitchTriggerAt threshold min_samples readings j := by
    intro lv t
    have h0 : ensure_no_glitch threshold min_samples readings
        = glitchLoop threshold min_samples 0 0 (mkThr threshold 0 0) readings := rfl
    rw [h0, glitchLoop_glitch_iff]
    constructor
    · rintro ⟨i, hi, hlv, ht, htrig, hmin⟩
      have hmi : min_samples < i :=
        ((glitchTrigFrom_zero_iff threshold min_samples readings i).mp htrig).1
      obtain ⟨k, rfl⟩ : ∃ k, i = k + 1 := ⟨i - 1, by omega⟩
      refine ⟨k + 1, hi, hlv, ?_,
        (glitchTrigFrom_zero_iff threshold min_samples readings _).mp htrig,
        fun j hj hc => hmin j hj
          ((glitchTrigFrom_zero_iff threshold min_samples readings j).mpr hc)⟩
      rw [ht]
      simp [mkThr, glitchThresholdAt]
    · rintro ⟨i, hi, hlv, ht, htrig, hmin⟩
      have hmi : min_samples < i := htrig.1
      obtain ⟨k, rfl⟩ : ∃ k, i = k + 1 := ⟨i - 1, by omega⟩
      refine ⟨k + 1, hi, hlv, ?_,
        (glitchTrigFrom_zero_iff threshold min_samples readings _).mpr htrig,
        fun j hj hc => hmin j hj
          ((glitchTrigFrom_zero_iff threshold min_samples readings j).mp hc)⟩
      rw [ht]
      simp [mkThr, glitchThresholdAt]
  refine ⟨hglitch, ?_, ?_⟩
  · intro hok i hi htrig
    have hex : ∃ j, glitchTriggerAt threshold min_samples readings j := ⟨i, htrig⟩
    have hspec := Nat.find_spec hex
    have hlen : Nat.find hex < readings.length := by
      by_contra hge
      obtain ⟨-, hany⟩ := hspec
      rw [List.getD_eq_default _ _ (by omega)] at hany
      simp at hany
    have hres := (hglitch (readings.getD (Nat.find hex) [])
        (some (glitchThresholdAt threshold readings (Nat.find hex)))).mpr
      ⟨Nat.find hex, hlen, rfl, rfl, hspec, fun j hj => Nat.find_min hex hj⟩
    rw [hok] at hres
    exact GlitchResult.noConfusion hres
  · intro hnone
    rcases glitchLoop_ok_or_glitch threshold min_samples readings 0 0 none with hok | ⟨lv, u, hg⟩
    · exact hok
    · exfalso
      obtain ⟨i, hi, -, -, htrig, -⟩ := (hglitch lv u).mp hg
      exact hnone i hi htrig

/-- Witness for C2: with `min_samples = 1` the fourth reading (peak 100)
exceeds `threshold + average = 10` and is reported with that threshold. -/
theorem ensure_no_glitch_characterisation_witness :
    ensure_no_glitch 10 1 [[0], [0], [0], [100]] = .glitch [100] (some 10) := by
  refine ((ensure_no_glitch_characterisation 10 1 [[0], [0], [0], [100]] (by decide)).1
      [100] (some 10)).mpr ⟨3, by norm_num, rfl, ?_, ?_, ?_⟩
  · show some (10 : ℚ) = some (glitchThresholdAt 10 [[0], [0], [0], [100]] 3)
    norm_num [glitchThresholdAt, meanSum, mean]
  · refine ⟨by norm_num, ?_⟩
    norm_num [glitchThresholdAt, meanSum, mean]
  · intro j hj
    interval_cases j <;> norm_num [glitchTriggerAt, glitchThresholdAt, meanSum, mean]

end Audio
